import Mathlib

/-!
Verification of an RFB (VNC) client: key derivation, VNCAuth challenge
response, handshake and security negotiation, framebuffer-update parsing
and rectangle compositing, and the keyboard input-event encoder.

The development shallowly embeds the two Python scripts
`vnc-screenshot.py` and `vnc-control.py`:

* byte strings become `List Nat` (each element a byte value);
* Python text strings become `List Char`;
* the TCP socket becomes either a flat byte list consumed by
  "read exactly n bytes" (for the update receive loops, which only ever
  read through `recv_exact`) or a list of delivery chunks (for the
  handshake, which calls bare `recv` and can therefore see short reads);
* socket sends of input events become returned event lists;
* raised exceptions become `Except`/`Option` error results;
* the external DES block cipher is an abstract parameter `E`
  (the scripts delegate it to a crypto library); the VNC-specific key
  bit-reversal and two-block split are modelled exactly.
-/

/-- Byte of a byte string at position `p` (0 when out of range). -/
def byteAt (l : List ℕ) (p : ℕ) : ℕ := l.getD p 0

/-- Big-endian value of a byte string, as in `struct.unpack` with formats
`>H`/`>I` on the exact slice. -/
def beNat (l : List ℕ) : ℕ := l.foldl (fun a b => a * 256 + b) 0

/-- Signed big-endian 32-bit value (`struct.unpack` format `>i`), used for
the rectangle encoding field. -/
def beSigned32 (l : List ℕ) : Int :=
  if beNat l < 2147483648 then (beNat l : Int) else (beNat l : Int) - 4294967296

/-- Big-endian 2-byte encoding of a `u16` value. -/
def be2 (n : ℕ) : List ℕ := [n / 256 % 256, n % 256]

/-- Big-endian 4-byte encoding of a `u32` value. -/
def be4 (n : ℕ) : List ℕ :=
  [n / 16777216 % 256, n / 65536 % 256, n / 256 % 256, n % 256]

/-- Reversal of the bit order inside one byte: the model of
`int(format(b, '08b')[::-1], 2)` (vnc-screenshot.py line 41,
vnc-control.py line 66) for byte values `b < 256`.  Bit `i` of the input
becomes bit `7 - i` of the output. -/
def reverseBits8 (b : ℕ) : ℕ :=
  (List.range 8).foldl (fun acc i => acc * 2 + b / 2 ^ i % 2) 0

/-- `(password.encode('utf-8') + b'\x00' * 8)[:8]` (vnc-screenshot.py
line 77, vnc-control.py line 102): right-pad with zero bytes, truncate to
the first 8 bytes.  The password is taken as its byte sequence. -/
def padKey (password : List ℕ) : List ℕ :=
  (password ++ List.replicate 8 0).take 8

/-- The derived DES key: the padded/truncated password with the bit order
of each byte reversed (the reversal happens inside `vnc_des_encrypt`,
vnc-screenshot.py lines 40-42). -/
def deriveKey (password : List ℕ) : List ℕ :=
  (padKey password).map reverseBits8

/-- `vnc_des_encrypt` (vnc-screenshot.py lines 28-44): reverse the bit
order of each key byte, then apply the external DES-ECB cipher `E`. -/
def vnc_des_encrypt (E : List ℕ → List ℕ → List ℕ) (key_bytes challenge : List ℕ) : List ℕ :=
  E (key_bytes.map reverseBits8) challenge

/-- The VNCAuth response (vnc-screenshot.py line 80, vnc-control.py
line 103): encrypt `challenge[:8]` and `challenge[8:16]` as two
independent blocks and concatenate. -/
def vncAuthResponse (E : List ℕ → List ℕ → List ℕ) (key challenge : List ℕ) : List ℕ :=
  vnc_des_encrypt E key (challenge.take 8) ++ vnc_des_encrypt E key ((challenge.drop 8).take 8)

/-- One RFB client event.  The scripts write each event to the socket as
it is produced; the embedding collects the produced sequence instead. -/
inductive RFBEvent where
  | keyEvent (keysym : ℕ) (down : Bool)
deriving DecidableEq

/-- `KEYSYM_MAP` (vnc-control.py lines 36-58), as an association list in
source order; the keys of the Python dict literal are pairwise distinct,
so first-match lookup agrees with dict lookup. -/
def KEYSYM_MAP : List (List Char × ℕ) :=
  [("return".toList, 0xff0d), ("enter".toList, 0xff0d),
   ("tab".toList, 0xff09),
   ("escape".toList, 0xff1b), ("esc".toList, 0xff1b),
   ("backspace".toList, 0xff08), ("delete".toList, 0xffff),
   ("space".toList, 0x0020),
   ("up".toList, 0xff52), ("down".toList, 0xff54),
   ("left".toList, 0xff51), ("right".toList, 0xff53),
   ("home".toList, 0xff50), ("end".toList, 0xff57),
   ("pageup".toList, 0xff55), ("pagedown".toList, 0xff56),
   ("f1".toList, 0xffbe), ("f2".toList, 0xffbf), ("f3".toList, 0xffc0),
   ("f4".toList, 0xffc1), ("f5".toList, 0xffc2), ("f6".toList, 0xffc3),
   ("f7".toList, 0xffc4), ("f8".toList, 0xffc5), ("f9".toList, 0xffc6),
   ("f10".toList, 0xffc7), ("f11".toList, 0xffc8), ("f12".toList, 0xffc9),
   ("shift".toList, 0xffe1), ("shift_l".toList, 0xffe1), ("shift_r".toList, 0xffe2),
   ("ctrl".toList, 0xffe3), ("control".toList, 0xffe3),
   ("ctrl_l".toList, 0xffe3), ("ctrl_r".toList, 0xffe4),
   ("alt".toList, 0xffe9), ("option".toList, 0xffe9),
   ("alt_l".toList, 0xffe9), ("alt_r".toList, 0xffea),
   ("cmd".toList, 0xffe7), ("command".toList, 0xffe7),
   ("meta".toList, 0xffe7), ("super".toList, 0xffeb),
   ("super_l".toList, 0xffeb), ("super_r".toList, 0xffec),
   ("insert".toList, 0xff63),
   ("capslock".toList, 0xffe5),
   ("numlock".toList, 0xff7f)]

/-- Dict lookup `KEYSYM_MAP.get(name)`. -/
def keysymGet (name : List Char) : Option ℕ :=
  (KEYSYM_MAP.find? (fun e => e.1 == name)).map (fun e => e.2)

/-- Python `str.lower()`, restricted to the ASCII names this tool uses. -/
def lowerStr (s : List Char) : List Char := s.map Char.toLower

/-- Python `str.split('+')`: split on every occurrence of `'+'`. -/
def splitPlus : List Char → List (List Char)
  | [] => [[]]
  | c :: rest =>
    if c = '+' then [] :: splitPlus rest
    else
      match splitPlus rest with
      | [] => [[c]]
      | g :: gs => (c :: g) :: gs

/-- Python `str.strip()`: remove leading and trailing whitespace. -/
def stripStr (s : List Char) : List Char :=
  ((s.dropWhile Char.isWhitespace).reverse.dropWhile Char.isWhitespace).reverse

/-- `VNCConnection.press_key` (vnc-control.py lines 187-196): resolve the
name through `KEYSYM_MAP` on the lowercased name, fall back to the code
point for single-character names, raise for other unresolved names; emit
key down then key up. -/
def press_key (key_name : List Char) : Except (List Char) (List RFBEvent) :=
  match keysymGet (lowerStr key_name) with
  | some k => .ok [.keyEvent k true, .keyEvent k false]
  | none =>
    match key_name with
    | [c] => .ok [.keyEvent c.toNat true, .keyEvent c.toNat false]
    | _ => .error ("Unknown key: ".toList ++ key_name)

/-- The per-part resolution loop of `VNCConnection.key_combo`
(vnc-control.py lines 200-210): strip each part, resolve via the table,
fall back to the code point for single characters, raise otherwise. -/
def resolveComboKeys : List (List Char) → Except (List Char) (List ℕ)
  | [] => .ok []
  | p :: ps =>
    let q := stripStr p
    match keysymGet q with
    | some k => (resolveComboKeys ps).map (fun ks => k :: ks)
    | none =>
      match q with
      | [c] => (resolveComboKeys ps).map (fun ks => c.toNat :: ks)
      | _ => .error ("Unknown key in combo: ".toList ++ q)

/-- `VNCConnection.key_combo` (vnc-control.py lines 198-220): lowercase,
split on `'+'`, resolve every part, then press all keys down in
left-to-right order and release them in reverse order. -/
def key_combo (combo : List Char) : Except (List Char) (List RFBEvent) :=
  match resolveComboKeys (splitPlus (lowerStr combo)) with
  | .error e => .error e
  | .ok keys =>
    .ok (keys.map (fun k => RFBEvent.keyEvent k true) ++
         (keys.reverse.map (fun k => RFBEvent.keyEvent k false)))

/-- One bare `sock.recv(n)` call on a stream of delivery chunks: returns
at most `n` bytes from the front of the current chunk (possibly fewer — a
short read), or the empty byte string at end of stream. -/
def recvRaw (n : ℕ) (cs : List (List ℕ)) : List ℕ × List (List ℕ) :=
  match cs with
  | [] => ([], [])
  | c :: rest => (c.take n, if n < c.length then c.drop n :: rest else rest)

/-- The loop body of `recv_exact` (vnc-screenshot.py lines 137-144,
vnc-control.py lines 126-133): keep calling `recv(min(remaining, 65536))`
and accumulating until `n` bytes are collected; an empty chunk means the
connection closed and raises.  `fuel` bounds the iteration count; the
wrapper below supplies `n`, which always suffices because every
successful iteration obtains at least one byte. -/
def recvExactAux : ℕ → ℕ → List (List ℕ) → Option (List ℕ × List (List ℕ))
  | _, 0, cs => some ([], cs)
  | 0, _ + 1, _ => none
  | fuel + 1, n + 1, cs =>
    let r := recvRaw (min (n + 1) 65536) cs
    if r.1.isEmpty then none
    else
      match recvExactAux fuel (n + 1 - r.1.length) r.2 with
      | some (restData, cs2) => some (r.1 ++ restData, cs2)
      | none => none

/-- `recv_exact(n)`: read exactly `n` bytes or fail. -/
def recv_exact (n : ℕ) (cs : List (List ℕ)) : Option (List ℕ × List (List ℕ)) :=
  recvExactAux n n cs

/-- Failure modes of the handshake, one constructor per distinct raise
site of the scripts (which raise `Exception`/`struct.error` with distinct
messages).  Error text is carried as the raw byte string. -/
inductive HsError where
  | structError : HsError
  | connectionRejected : List ℕ → HsError
  | unsupportedSecurity : List ℕ → HsError
  | authenticationFailed : ℕ → HsError
deriving DecidableEq

/-- `struct.unpack('B', data)`: one byte, exact length required. -/
def unpackU8 (l : List ℕ) : Except HsError ℕ :=
  if l.length = 1 then .ok (beNat l) else .error .structError

/-- `struct.unpack('>I', data)`: big-endian u32, exact length required. -/
def unpackU32 (l : List ℕ) : Except HsError ℕ :=
  if l.length = 4 then .ok (beNat l) else .error .structError

/-- Security negotiation (vnc-screenshot.py lines 60-91, vnc-control.py
lines 91-111): read the one-byte count of offered security types; a zero
count means a rejection — read a 4-byte big-endian length and that many
bytes of error text and raise; otherwise read the offered type bytes and
select type 2 (VNCAuth) if offered, else type 1 (None) if offered, else
raise.  Returns the selected type, the offered list, and the remaining
stream. -/
def negotiateSecurity (cs : List (List ℕ)) : Except HsError (ℕ × List ℕ × List (List ℕ)) :=
  let r1 := recvRaw 1 cs
  match unpackU8 r1.1 with
  | .error e => .error e
  | .ok numTypes =>
    if numTypes = 0 then
      let r2 := recvRaw 4 r1.2
      match unpackU32 r2.1 with
      | .error e => .error e
      | .ok errLen =>
        let r3 := recvRaw errLen r2.2
        .error (.connectionRejected r3.1)
    else
      let r4 := recvRaw numTypes r1.2
      if 2 ∈ r4.1 then .ok (2, r4.1, r4.2)
      else if 1 ∈ r4.1 then .ok (1, r4.1, r4.2)
      else .error (.unsupportedSecurity r4.1)

/-- The VNCAuth exchange (vnc-screenshot.py lines 74-86): read the
16-byte challenge with bare `recv`, send the two-block DES response, read
the 4-byte result; non-zero means authentication failed. -/
def vncAuthPhase (E : List ℕ → List ℕ → List ℕ) (password : List ℕ)
    (cs : List (List ℕ)) : Except HsError (List (List ℕ)) :=
  let rc := recvRaw 16 cs
  let key := padKey password
  let _response := vncAuthResponse E key rc.1
  let ra := recvRaw 4 rc.2
  match unpackU32 ra.1 with
  | .error e => .error e
  | .ok result =>
    if result ≠ 0 then .error (.authenticationFailed result) else .ok ra.2

/-- Result of a completed handshake: the (possibly short) server version
bytes actually read, the negotiated width, height and name, and the
remaining stream. -/
structure HsResult where
  serverVersion : List ℕ
  width : ℕ
  height : ℕ
  nameLen : ℕ
  name : List ℕ
  rest : List (List ℕ)
deriving DecidableEq

/-- ServerInit parsing (vnc-screenshot.py lines 97-105): read 24 bytes
with bare `recv`, unpack width, height and the name length, then read the
name.  The intermediate `struct.unpack` calls on fixed slices raise
exactly when fewer than 24 bytes were received. -/
def serverInitPhase (ver : List ℕ) (cs : List (List ℕ)) : Except HsError HsResult :=
  let rs := recvRaw 24 cs
  if rs.1.length < 24 then .error .structError
  else
    let w := beNat (rs.1.take 2)
    let h := beNat ((rs.1.drop 2).take 2)
    let nameLen := beNat ((rs.1.drop 20).take 4)
    let rn := recvRaw nameLen rs.2
    .ok ⟨ver, w, h, nameLen, rn.1, rn.2⟩

/-- The whole handshake of `capture_vnc_screenshot` (vnc-screenshot.py
lines 55-105): bare `recv(12)` for the server version (the result is
never validated), security negotiation, optional VNCAuth, client init,
ServerInit.  All reads before the update loop use bare `recv`, not
`recv_exact`. -/
def handshakeScreenshot (E : List ℕ → List ℕ → List ℕ) (password : List ℕ)
    (cs : List (List ℕ)) : Except HsError HsResult :=
  let rv := recvRaw 12 cs
  match negotiateSecurity rv.2 with
  | .error e => .error e
  | .ok (sel, _offered, cs1) =>
    if sel = 2 then
      match vncAuthPhase E password cs1 with
      | .error e => .error e
      | .ok cs2 => serverInitPhase rv.1 cs2
    else
      serverInitPhase rv.1 cs1

/-- Read exactly `n` bytes from a flat byte stream or fail.  This is the
effect of `recv_exact(n)` on the underlying byte sequence (see
`recv_exact_spec`): the update receive loops perform all their reads
through it. -/
def readExact (n : ℕ) (s : List ℕ) : Option (List ℕ × List ℕ) :=
  if n ≤ s.length then some (s.take n, s.drop n) else none

/-- Python bytearray slice assignment
`buf[start : start + len(data)] = data`: indices are clipped to the
current buffer length, and the (clipped) slice is replaced by the whole
of `data` — so an out-of-range window can change the buffer's length. -/
def setSlice (buf : List ℕ) (start : ℕ) (data : List ℕ) : List ℕ :=
  buf.take (min start buf.length) ++ data ++ buf.drop (min (start + data.length) buf.length)

/-- The Raw-rectangle compositing loop (vnc-screenshot.py lines 159-162,
vnc-control.py lines 265-268): for each row, slice-assign the row's
payload bytes into the buffer at offset `((ry + row) * width + rx) * 4`,
length `rw * 4`. -/
def applyRawRect (width : ℕ) (fb : List ℕ) (rx ry rw rh : ℕ) (rd : List ℕ) : List ℕ :=
  (List.range rh).foldl
    (fun b row =>
      setSlice b (((ry + row) * width + rx) * 4) ((rd.drop (row * rw * 4)).take (rw * 4)))
    fb

/-- The per-rectangle loop of the standalone tool (vnc-screenshot.py
lines 153-165): read the 12-byte header; for Raw encoding read the
payload and composite it; for any other encoding `break` — return the
buffer unchanged with the remaining count of rectangles unprocessed. -/
def processRectsScreenshot (width : ℕ) : ℕ → List ℕ → List ℕ →
    Except String (List ℕ × List ℕ)
  | 0, s, fb => .ok (fb, s)
  | n + 1, s, fb =>
    match readExact 12 s with
    | none => .error "Connection closed"
    | some (hd, s1) =>
      let rx := beNat (hd.take 2)
      let ry := beNat ((hd.drop 2).take 2)
      let rw := beNat ((hd.drop 4).take 2)
      let rh := beNat ((hd.drop 6).take 2)
      if beSigned32 (hd.drop 8) = 0 then
        match readExact (rw * rh * 4) s1 with
        | none => .error "Connection closed"
        | some (rd, s2) =>
          processRectsScreenshot width n s2 (applyRawRect width fb rx ry rw rh rd)
      else
        .ok (fb, s1)

/-- The per-rectangle loop of the connection class (vnc-control.py lines
261-268): identical to the standalone tool's except that a non-Raw
rectangle is skipped silently — the loop continues with the next header
without consuming the unsupported rectangle's payload. -/
def processRectsControl (width : ℕ) : ℕ → List ℕ → List ℕ →
    Except String (List ℕ × List ℕ)
  | 0, s, fb => .ok (fb, s)
  | n + 1, s, fb =>
    match readExact 12 s with
    | none => .error "Connection closed"
    | some (hd, s1) =>
      let rx := beNat (hd.take 2)
      let ry := beNat ((hd.drop 2).take 2)
      let rw := beNat ((hd.drop 4).take 2)
      let rh := beNat ((hd.drop 6).take 2)
      if beSigned32 (hd.drop 8) = 0 then
        match readExact (rw * rh * 4) s1 with
        | none => .error "Connection closed"
        | some (rd, s2) =>
          processRectsControl width n s2 (applyRawRect width fb rx ry rw rh rd)
      else
        processRectsControl width n s1 fb

/-- The message receive loop of the standalone tool (vnc-screenshot.py
lines 146-185): dispatch on the message-type byte; a FramebufferUpdate
(type 0) is processed and then the loop stops; SetColorMapEntries (1),
Bell (2) and ServerCutText (3) are consumed and skipped; an unknown type
stops the loop.  `fuel` bounds the iterations; every continuing branch
consumes at least one byte, so the wrapper's `s.length + 1` suffices. -/
def recvLoopScreenshot (width : ℕ) : ℕ → List ℕ → List ℕ →
    Except String (List ℕ × List ℕ)
  | 0, _, _ => .error "Connection closed"
  | fuel + 1, s, fb =>
    match readExact 1 s with
    | none => .error "Connection closed"
    | some (tb, s1) =>
      if beNat tb = 0 then
        match readExact 1 s1 with
        | none => .error "Connection closed"
        | some (_, s2) =>
          match readExact 2 s2 with
          | none => .error "Connection closed"
          | some (nb, s3) => processRectsScreenshot width (beNat nb) s3 fb
      else if beNat tb = 1 then
        match readExact 1 s1 with
        | none => .error "Connection closed"
        | some (_, s2) =>
          match readExact 2 s2 with
          | none => .error "Connection closed"
          | some (_, s3) =>
            match readExact 2 s3 with
            | none => .error "Connection closed"
            | some (cb, s4) =>
              match readExact (beNat cb * 6) s4 with
              | none => .error "Connection closed"
              | some (_, s5) => recvLoopScreenshot width fuel s5 fb
      else if beNat tb = 2 then
        recvLoopScreenshot width fuel s1 fb
      else if beNat tb = 3 then
        match readExact 3 s1 with
        | none => .error "Connection closed"
        | some (_, s2) =>
          match readExact 4 s2 with
          | none => .error "Connection closed"
          | some (lb, s3) =>
            match readExact (beNat lb) s3 with
            | none => .error "Connection closed"
            | some (_, s4) => recvLoopScreenshot width fuel s4 fb
      else .ok (fb, s1)

/-- The message receive loop of the connection class (vnc-control.py
lines 256-282): identical dispatch, but the rectangle loop is the
skip-on-unsupported variant. -/
def recvLoopControl (width : ℕ) : ℕ → List ℕ → List ℕ →
    Except String (List ℕ × List ℕ)
  | 0, _, _ => .error "Connection closed"
  | fuel + 1, s, fb =>
    match readExact 1 s with
    | none => .error "Connection closed"
    | some (tb, s1) =>
      if beNat tb = 0 then
        match readExact 1 s1 with
        | none => .error "Connection closed"
        | some (_, s2) =>
          match readExact 2 s2 with
          | none => .error "Connection closed"
          | some (nb, s3) => processRectsControl width (beNat nb) s3 fb
      else if beNat tb = 1 then
        match readExact 1 s1 with
        | none => .error "Connection closed"
        | some (_, s2) =>
          match readExact 2 s2 with
          | none => .error "Connection closed"
          | some (_, s3) =>
            match readExact 2 s3 with
            | none => .error "Connection closed"
            | some (cb, s4) =>
              match readExact (beNat cb * 6) s4 with
              | none => .error "Connection closed"
              | some (_, s5) => recvLoopControl width fuel s5 fb
      else if beNat tb = 2 then
        recvLoopControl width fuel s1 fb
      else if beNat tb = 3 then
        match readExact 3 s1 with
        | none => .error "Connection closed"
        | some (_, s2) =>
          match readExact 4 s2 with
          | none => .error "Connection closed"
          | some (lb, s3) =>
            match readExact (beNat lb) s3 with
            | none => .error "Connection closed"
            | some (_, s4) => recvLoopControl width fuel s4 fb
      else .ok (fb, s1)

/-- The standalone tool's capture (vnc-screenshot.py lines 135-185):
allocate a `width * height * 4` zero buffer and run the receive loop. -/
def captureScreenshot (width height : ℕ) (s : List ℕ) :
    Except String (List ℕ × List ℕ) :=
  recvLoopScreenshot width (s.length + 1) s (List.replicate (width * height * 4) 0)

/-- `VNCConnection.capture_screenshot`'s receive phase (vnc-control.py
lines 254-282). -/
def captureControl (width height : ℕ) (s : List ℕ) :
    Except String (List ℕ × List ℕ) :=
  recvLoopControl width (s.length + 1) s (List.replicate (width * height * 4) 0)

/-- Stream check mirroring the rectangle loop: every rectangle header
parsed before the loop ends carries the Raw encoding. -/
def rectsAllRaw : ℕ → List ℕ → Bool
  | 0, _ => true
  | n + 1, s =>
    match readExact 12 s with
    | none => true
    | some (hd, s1) =>
      if beSigned32 (hd.drop 8) = 0 then
        match readExact (beNat ((hd.drop 4).take 2) * beNat ((hd.drop 6).take 2) * 4) s1 with
        | none => true
        | some (_, s2) => rectsAllRaw n s2
      else false

/-- Stream check mirroring the receive loop: every FramebufferUpdate
encountered before the loop ends contains only Raw rectangles. -/
def streamAllRaw : ℕ → List ℕ → Bool
  | 0, _ => true
  | fuel + 1, s =>
    match readExact 1 s with
    | none => true
    | some (tb, s1) =>
      if beNat tb = 0 then
        match readExact 1 s1 with
        | none => true
        | some (_, s2) =>
          match readExact 2 s2 with
          | none => true
          | some (nb, s3) => rectsAllRaw (beNat nb) s3
      else if beNat tb = 1 then
        match readExact 1 s1 with
        | none => true
        | some (_, s2) =>
          match readExact 2 s2 with
          | none => true
          | some (_, s3) =>
            match readExact 2 s3 with
            | none => true
            | some (cb, s4) =>
              match readExact (beNat cb * 6) s4 with
              | none => true
              | some (_, s5) => streamAllRaw fuel s5
      else if beNat tb = 2 then
        streamAllRaw fuel s1
      else if beNat tb = 3 then
        match readExact 3 s1 with
        | none => true
        | some (_, s2) =>
          match readExact 4 s2 with
          | none => true
          | some (lb, s3) =>
            match readExact (beNat lb) s3 with
            | none => true
            | some (_, s4) => streamAllRaw fuel s4
      else true

/-- Stream check mirroring the standalone tool's rectangle loop: every
Raw rectangle header it parses before ending declares a region inside
the negotiated display (a non-Raw header aborts that loop, so it needs
no bound). -/
def rectsInBounds (width height : ℕ) : ℕ → List ℕ → Bool
  | 0, _ => true
  | n + 1, s =>
    match readExact 12 s with
    | none => true
    | some (hd, s1) =>
      if beSigned32 (hd.drop 8) = 0 then
        (decide (beNat (hd.take 2) + beNat ((hd.drop 4).take 2) ≤ width) &&
         decide (beNat ((hd.drop 2).take 2) + beNat ((hd.drop 6).take 2) ≤ height)) &&
        (match readExact (beNat ((hd.drop 4).take 2) * beNat ((hd.drop 6).take 2) * 4) s1 with
         | none => true
         | some (_, s2) => rectsInBounds width height n s2)
      else true

/-- Stream check mirroring the standalone tool's receive loop: every Raw
rectangle of every FramebufferUpdate it parses lies inside the
negotiated display. -/
def streamInBounds (width height : ℕ) : ℕ → List ℕ → Bool
  | 0, _ => true
  | fuel + 1, s =>
    match readExact 1 s with
    | none => true
    | some (tb, s1) =>
      if beNat tb = 0 then
        match readExact 1 s1 with
        | none => true
        | some (_, s2) =>
          match readExact 2 s2 with
          | none => true
          | some (nb, s3) => rectsInBounds width height (beNat nb) s3
      else if beNat tb = 1 then
        match readExact 1 s1 with
        | none => true
        | some (_, s2) =>
          match readExact 2 s2 with
          | none => true
          | some (_, s3) =>
            match readExact 2 s3 with
            | none => true
            | some (cb, s4) =>
              match readExact (beNat cb * 6) s4 with
              | none => true
              | some (_, s5) => streamInBounds width height fuel s5
      else if beNat tb = 2 then
        streamInBounds width height fuel s1
      else if beNat tb = 3 then
        match readExact 3 s1 with
        | none => true
        | some (_, s2) =>
          match readExact 4 s2 with
          | none => true
          | some (lb, s3) =>
            match readExact (beNat lb) s3 with
            | none => true
            | some (_, s4) => streamInBounds width height fuel s4
      else true

/-- Stream check mirroring the connection class's rectangle loop: every
Raw rectangle header it parses declares a region inside the negotiated
display.  On a non-Raw header that loop skips to the next header without
consuming a payload, so this check does the same — it constrains exactly
the headers the connection class actually reads. -/
def rectsInBoundsControl (width height : ℕ) : ℕ → List ℕ → Bool
  | 0, _ => true
  | n + 1, s =>
    match readExact 12 s with
    | none => true
    | some (hd, s1) =>
      if beSigned32 (hd.drop 8) = 0 then
        (decide (beNat (hd.take 2) + beNat ((hd.drop 4).take 2) ≤ width) &&
         decide (beNat ((hd.drop 2).take 2) + beNat ((hd.drop 6).take 2) ≤ height)) &&
        (match readExact (beNat ((hd.drop 4).take 2) * beNat ((hd.drop 6).take 2) * 4) s1 with
         | none => true
         | some (_, s2) => rectsInBoundsControl width height n s2)
      else rectsInBoundsControl width height n s1

/-- Stream check mirroring the connection class's receive loop: every
Raw rectangle header it parses lies inside the negotiated display. -/
def streamInBoundsControl (width height : ℕ) : ℕ → List ℕ → Bool
  | 0, _ => true
  | fuel + 1, s =>
    match readExact 1 s with
    | none => true
    | some (tb, s1) =>
      if beNat tb = 0 then
        match readExact 1 s1 with
        | none => true
        | some (_, s2) =>
          match readExact 2 s2 with
          | none => true
          | some (nb, s3) => rectsInBoundsControl width height (beNat nb) s3
      else if beNat tb = 1 then
        match readExact 1 s1 with
        | none => true
        | some (_, s2) =>
          match readExact 2 s2 with
          | none => true
          | some (_, s3) =>
            match readExact 2 s3 with
            | none => true
            | some (cb, s4) =>
              match readExact (beNat cb * 6) s4 with
              | none => true
              | some (_, s5) => streamInBoundsControl width height fuel s5
      else if beNat tb = 2 then
        streamInBoundsControl width height fuel s1
      else if beNat tb = 3 then
        match readExact 3 s1 with
        | none => true
        | some (_, s2) =>
          match readExact 4 s2 with
          | none => true
          | some (lb, s3) =>
            match readExact (beNat lb) s3 with
            | none => true
            | some (_, s4) => streamInBoundsControl width height fuel s4
      else true

/-- A Raw-encoded rectangle of a FramebufferUpdate: origin, extent and
payload. -/
structure RawRect where
  x : ℕ
  y : ℕ
  w : ℕ
  h : ℕ
  data : List ℕ
deriving DecidableEq

/-- Whether byte position `p` of the pixel buffer lies inside rectangle
`r` (pixel `p / 4` has column `p / 4 % width` and row `p / 4 / width`). -/
def rectCovers (width : ℕ) (r : RawRect) (p : ℕ) : Bool :=
  decide (r.x ≤ p / 4 % width) && decide (p / 4 % width < r.x + r.w) &&
  decide (r.y ≤ p / 4 / width) && decide (p / 4 / width < r.y + r.h)

/-- The payload index that rectangle `r` copies to buffer position `p`. -/
def rectIdx (width : ℕ) (r : RawRect) (p : ℕ) : ℕ :=
  ((p / 4 / width - r.y) * r.w + (p / 4 % width - r.x)) * 4 + p % 4

/-- The payload byte that rectangle `r` copies to buffer position `p`. -/
def rValue (width : ℕ) (r : RawRect) (p : ℕ) : ℕ := byteAt r.data (rectIdx width r p)

/-- Folding a list of Raw rectangles into the buffer in server order —
the accumulated effect of the compositing loop over an update. -/
def composite (width : ℕ) (fb : List ℕ) (rects : List RawRect) : List ℕ :=
  rects.foldl (fun b r => applyRawRect width b r.x r.y r.w r.h r.data) fb

/-- The 12-byte wire header of a Raw rectangle (u16 x, y, w, h and the
i32 encoding 0). -/
def encodeRectHeader (r : RawRect) : List ℕ :=
  [r.x / 256 % 256, r.x % 256, r.y / 256 % 256, r.y % 256,
   r.w / 256 % 256, r.w % 256, r.h / 256 % 256, r.h % 256, 0, 0, 0, 0]

/-- The wire form of a sequence of Raw rectangles: each header followed
by its payload. -/
def encodeRawRects : List RawRect → List ℕ
  | [] => []
  | r :: rs => encodeRectHeader r ++ r.data ++ encodeRawRects rs

/-- Well-formedness of a rectangle against the negotiated display:
within bounds, exactly sized payload, and u16-representable fields. -/
def rectInBounds (width height : ℕ) (r : RawRect) : Prop :=
  r.x + r.w ≤ width ∧ r.y + r.h ≤ height ∧ r.data.length = r.w * r.h * 4 ∧
  r.x < 65536 ∧ r.y < 65536 ∧ r.w < 65536 ∧ r.h < 65536

theorem byteAt_nil (p : ℕ) : byteAt [] p = 0 := by
  simp [byteAt]

theorem byteAt_cons_zero (a : ℕ) (l : List ℕ) : byteAt (a :: l) 0 = a := by
  simp [byteAt]

theorem byteAt_cons_succ (a : ℕ) (l : List ℕ) (p : ℕ) :
    byteAt (a :: l) (p + 1) = byteAt l p := by
  simp [byteAt]

theorem byteAt_append (A B : List ℕ) (p : ℕ) :
    byteAt (A ++ B) p = if p < A.length then byteAt A p else byteAt B (p - A.length) := by
  induction A generalizing p with
  | nil => simp [byteAt]
  | cons a A ih =>
    cases p with
    | zero => simp [byteAt]
    | succ q =>
      simp only [List.cons_append, byteAt_cons_succ, ih, List.length_cons]
      by_cases h : q < A.length
      · simp [h, Nat.succ_lt_succ h]
      · have h2 : ¬ (q + 1 < A.length + 1) := by omega
        simp [h, h2]

theorem byteAt_take (l : List ℕ) (n p : ℕ) (h : p < n) :
    byteAt (l.take n) p = byteAt l p := by
  induction l generalizing n p with
  | nil => simp [byteAt]
  | cons a l ih =>
    cases n with
    | zero => omega
    | succ m =>
      cases p with
      | zero => simp [byteAt]
      | succ q => simpa [byteAt_cons_succ] using ih m q (by omega)

theorem byteAt_drop (l : List ℕ) (n p : ℕ) :
    byteAt (l.drop n) p = byteAt l (n + p) := by
  induction l generalizing n with
  | nil => simp [byteAt]
  | cons a l ih =>
    cases n with
    | zero => simp
    | succ m =>
      have : m + 1 + p = (m + p) + 1 := by omega
      simp [this, byteAt_cons_succ, ih]

theorem byteAt_replicate (n a p : ℕ) :
    byteAt (List.replicate n a) p = if p < n then a else 0 := by
  induction n generalizing p with
  | zero => simp [byteAt]
  | succ m ih =>
    cases p with
    | zero => simp [List.replicate, byteAt]
    | succ q =>
      simp only [List.replicate, byteAt_cons_succ, ih]
      by_cases h : q < m
      · simp [h, Nat.succ_lt_succ h]
      · have h2 : ¬ (q + 1 < m + 1) := by omega
        simp [h, h2]

theorem byteAt_zeros (n p : ℕ) : byteAt (List.replicate n 0) p = 0 := by
  rw [byteAt_replicate]
  split <;> rfl

theorem beNat_be2 (n : ℕ) (h : n < 65536) : beNat (be2 n) = n := by
  simp only [be2, beNat, List.foldl]
  omega

theorem beNat_be4 (n : ℕ) (h : n < 4294967296) : beNat (be4 n) = n := by
  simp only [be4, beNat, List.foldl]
  omega

theorem length_be2 (n : ℕ) : (be2 n).length = 2 := rfl

theorem length_be4 (n : ℕ) : (be4 n).length = 4 := rfl

theorem reverseBits8_zero : reverseBits8 0 = 0 := by decide

theorem byteAt_map_reverseBits8 (l : List ℕ) (i : ℕ) :
    byteAt (l.map reverseBits8) i = reverseBits8 (byteAt l i) := by
  induction l generalizing i with
  | nil => simp [byteAt, reverseBits8_zero]
  | cons a l ih =>
    cases i with
    | zero => simp [byteAt]
    | succ q => simpa [byteAt_cons_succ] using ih q

theorem length_padKey (p : List ℕ) : (padKey p).length = 8 := by
  simp [padKey]

theorem padKey_take8 (p : List ℕ) : padKey p = padKey (p.take 8) := by
  simp only [padKey, List.take_append_eq_append_take, List.take_take,
    List.length_take, List.take_replicate]
  congr 2
  omega

/-- C3: the derived DES key is the password bytes right-padded with zeros,
truncated to the first 8 bytes, with the bit order of each byte reversed;
it always has length exactly 8, and only the first 8 pre-reversal bytes
influence it. -/
theorem deriveKey_spec (p : List ℕ) :
    (deriveKey p).length = 8 ∧
    deriveKey p = deriveKey (p.take 8) ∧
    (∀ i, i < 8 → byteAt (deriveKey p) i = reverseBits8 (byteAt (p ++ List.replicate 8 0) i)) := by
  refine ⟨by simp [deriveKey, length_padKey], by rw [deriveKey, padKey_take8]; rfl, ?_⟩
  intro i hi
  rw [deriveKey, byteAt_map_reverseBits8, padKey, byteAt_take _ _ _ hi]

theorem deriveKey_spec_witness :
    (deriveKey [1, 2, 3]).length = 8 ∧
    byteAt (deriveKey [1, 2, 3]) 0 = reverseBits8 1 := by
  refine ⟨(deriveKey_spec [1, 2, 3]).1, ?_⟩
  have h := (deriveKey_spec [1, 2, 3]).2.2 0 (by decide)
  simpa using h

/-- C4: for an 8-byte-block-preserving cipher `E`, any password-derived
key and any 16-byte challenge, the VNCAuth response is exactly 16 bytes,
its first half is the encryption of `challenge[:8]` alone, and two
challenges agreeing on their first 8 bytes yield the same first response
half. -/
theorem vncAuthResponse_spec (E : List ℕ → List ℕ → List ℕ)
    (hE : ∀ k b, b.length = 8 → (E k b).length = 8)
    (key c1 c2 : List ℕ) (h1 : c1.length = 16) (h2 : c2.length = 16) :
    (vncAuthResponse E key c1).length = 16 ∧
    (vncAuthResponse E key c1).take 8 = vnc_des_encrypt E key (c1.take 8) ∧
    (c1.take 8 = c2.take 8 →
      (vncAuthResponse E key c1).take 8 = (vncAuthResponse E key c2).take 8) := by
  have len1 : (vnc_des_encrypt E key (c1.take 8)).length = 8 := by
    apply hE
    simp [h1]
  have len2 : (vnc_des_encrypt E key ((c1.drop 8).take 8)).length = 8 := by
    apply hE
    simp [h1]
  have hfirst : (vncAuthResponse E key c1).take 8 = vnc_des_encrypt E key (c1.take 8) := by
    rw [vncAuthResponse]
    exact List.take_left' len1
  refine ⟨?_, hfirst, ?_⟩
  · rw [vncAuthResponse, List.length_append, len1, len2]
  · intro hagree
    have len1b : (vnc_des_encrypt E key (c2.take 8)).length = 8 := by
      apply hE
      simp [h2]
    have hfirst2 : (vncAuthResponse E key c2).take 8 = vnc_des_encrypt E key (c2.take 8) := by
      rw [vncAuthResponse]
      exact List.take_left' len1b
    rw [hfirst, hfirst2, hagree]

theorem vncAuthResponse_spec_witness :
    (vncAuthResponse (fun _ b => b) [] (List.replicate 16 0)).length = 16 ∧
    (vncAuthResponse (fun _ b => b) [] (List.replicate 16 0)).take 8 =
      (vncAuthResponse (fun _ b => b) [] (List.replicate 8 0 ++ List.replicate 8 1)).take 8 := by
  have h := vncAuthResponse_spec (fun _ b => b) (fun _ _ hb => hb) []
    (List.replicate 16 0) (List.replicate 8 0 ++ List.replicate 8 1)
    (by decide) (by decide)
  exact ⟨h.1, h.2.2 (by decide)⟩

/-- C9: `press_key` resolves symbolic names via the fixed table, falls
back to the Unicode code point for single-character names not in the
table, and fails for unresolved multi-character names; in particular
`"Return"` gives keysym `0xff0d`, `"a"` gives `0x61`, and `"Zzz"`
fails. -/
theorem press_key_spec :
    press_key "Return".toList =
      .ok [.keyEvent 0xff0d true, .keyEvent 0xff0d false] ∧
    press_key "a".toList = .ok [.keyEvent 0x61 true, .keyEvent 0x61 false] ∧
    press_key "Zzz".toList = .error ("Unknown key: Zzz".toList) ∧
    (∀ name k, keysymGet (lowerStr name) = some k →
      press_key name = .ok [.keyEvent k true, .keyEvent k false]) ∧
    (∀ name c, keysymGet (lowerStr name) = none → name = [c] →
      press_key name = .ok [.keyEvent c.toNat true, .keyEvent c.toNat false]) ∧
    (∀ name, keysymGet (lowerStr name) = none → name.length ≠ 1 →
      press_key name = .error ("Unknown key: ".toList ++ name)) := by
  refine ⟨by rfl, by rfl, by rfl, ?_, ?_, ?_⟩
  · intro name k h
    simp [press_key, h]
  · intro name c h hn
    subst hn
    simp [press_key, h]
  · intro name h hn
    cases name with
    | nil => simp [press_key, h]
    | cons a t =>
      cases t with
      | nil => simp at hn
      | cons b t2 => simp [press_key, h]

theorem press_key_spec_witness :
    press_key "Up".toList = .ok [.keyEvent 0xff52 true, .keyEvent 0xff52 false] :=
  press_key_spec.2.2.2.1 "Up".toList 0xff52 (by decide)

/-- C8: when every `'+'`-separated part of a combo resolves, `key_combo`
emits key-down events for the resolved keysyms in left-to-right order,
then key-up events for the same keysyms in reverse order; in particular
`"ctrl+c"` gives downs `0xffe3`, `0x63` then ups `0x63`, `0xffe3`. -/
theorem key_combo_spec :
    (∀ combo ks, resolveComboKeys (splitPlus (lowerStr combo)) = .ok ks →
      key_combo combo =
        .ok (ks.map (fun k => RFBEvent.keyEvent k true) ++
             (ks.reverse.map (fun k => RFBEvent.keyEvent k false)))) ∧
    key_combo "ctrl+c".toList =
      .ok [.keyEvent 0xffe3 true, .keyEvent 0x63 true,
           .keyEvent 0x63 false, .keyEvent 0xffe3 false] := by
  refine ⟨?_, by rfl⟩
  intro combo ks h
  simp [key_combo, h]

theorem key_combo_spec_witness :
    key_combo "shift+tab".toList =
      .ok ([0xffe1, 0xff09].map (fun k => RFBEvent.keyEvent k true) ++
           ([0xffe1, 0xff09].reverse.map (fun k => RFBEvent.keyEvent k false))) :=
  key_combo_spec.1 "shift+tab".toList [0xffe1, 0xff09] (by rfl)

theorem recvExactAux_spec (fuel n : ℕ) (cs : List (List ℕ)) (d : List ℕ)
    (cs2 : List (List ℕ)) (h : recvExactAux fuel n cs = some (d, cs2)) :
    d.length = n ∧ d ++ cs2.flatten = cs.flatten := by
  induction fuel generalizing n cs d cs2 with
  | zero =>
    cases n with
    | zero =>
      simp [recvExactAux] at h
      simp [h.1, h.2]
    | succ m => simp [recvExactAux] at h
  | succ f ih =>
    cases n with
    | zero =>
      simp [recvExactAux] at h
      simp [h.1, h.2]
    | succ m =>
      simp only [recvExactAux] at h
      split at h
      · exact absurd h (by simp)
      · rename_i hne
        split at h
        · rename_i restData cs3 hrec
          have hr := ih _ _ _ _ hrec
          have hjoin : (recvRaw (min (m + 1) 65536) cs).1 ++ (recvRaw (min (m + 1) 65536) cs).2.flatten = cs.flatten := by
            rcases cs with _ | ⟨c, rest⟩
            · simp [recvRaw]
            · simp only [recvRaw]
              split
              · simp only [List.flatten_cons, ← List.append_assoc, List.take_append_drop]
              · rename_i hlen
                have : c.take (min (m + 1) 65536) = c := by
                  apply List.take_of_length_le
                  omega
                simp [this]
          have hlenr : (recvRaw (min (m + 1) 65536) cs).1.length ≤ m + 1 := by
            rcases cs with _ | ⟨c, rest⟩
            · simp [recvRaw]
            · simp only [recvRaw, List.length_take]
              omega
          cases h
          constructor
          · simp only [List.length_append]
            omega
          · rw [List.append_assoc, hr.2, hjoin]
        · exact absurd h (by simp)

/-- C7 (amended): the read-exactly primitive `recv_exact` never accepts a
short read — whenever it succeeds it returns exactly `n` bytes, and those
bytes are precisely the next `n` bytes of the stream; on the flat-stream
side, `readExact` (the update-loop reading primitive defined below)
likewise returns exactly `n` bytes or fails.  The handshake, by contrast,
reads through bare `recv` (see `handshakeShortRead_cex`). -/
theorem recv_exact_spec (n : ℕ) (cs : List (List ℕ)) (d : List ℕ)
    (cs2 : List (List ℕ)) (h : recv_exact n cs = some (d, cs2)) :
    d.length = n ∧ d ++ cs2.flatten = cs.flatten :=
  recvExactAux_spec n n cs d cs2 h

theorem recv_exact_spec_witness :
    ∃ d cs2, recv_exact 3 [[1, 2], [3, 4]] = some (d, cs2) ∧
      d.length = 3 ∧ d ++ cs2.flatten = [1, 2, 3, 4] := by
  refine ⟨[1, 2, 3], [[4]], by rfl, ?_⟩
  exact recv_exact_spec 3 [[1, 2], [3, 4]] [1, 2, 3] [[4]] (by rfl)

theorem negotiateSecurity_rejected (m : List ℕ) (rest : List (List ℕ))
    (hlen : m.length < 4294967296) :
    negotiateSecurity ([0] :: (be4 m.length ++ m) :: rest) =
      .error (.connectionRejected m) := by
  have h1 : recvRaw 1 ([0] :: (be4 m.length ++ m) :: rest) =
      ([0], (be4 m.length ++ m) :: rest) := by rfl
  have hu8 : unpackU8 [0] = .ok 0 := by rfl
  rcases Decidable.em (m = []) with hm | hm
  · subst hm
    rcases rest with _ | ⟨c, cs⟩ <;> rfl
  · have hmlen : 0 < m.length := List.length_pos.mpr hm
    have htake : (be4 m.length ++ m).take 4 = be4 m.length :=
      List.take_left' (length_be4 m.length)
    have hdrop : (be4 m.length ++ m).drop 4 = m :=
      List.drop_left' (length_be4 m.length)
    have hlt : 4 < (be4 m.length ++ m).length := by
      rw [List.length_append, length_be4]
      omega
    have h2 : recvRaw 4 ((be4 m.length ++ m) :: rest) =
        (be4 m.length, m :: rest) := by
      simp only [recvRaw]
      rw [htake, if_pos hlt, hdrop]
    have hu32 : unpackU32 (be4 m.length) = .ok m.length := by
      simp [unpackU32, length_be4, beNat_be4 _ hlen]
    have h3 : recvRaw m.length (m :: rest) = (m, rest) := by
      simp [recvRaw, List.take_length]
    simp [negotiateSecurity, h1, hu8, h2, hu32, h3]

theorem negotiateSecurity_select (types : List ℕ) (rest : List (List ℕ))
    (hne : types ≠ []) (hlt : types.length < 256) :
    (2 ∈ types →
      negotiateSecurity ([types.length] :: types :: rest) = .ok (2, types, rest)) ∧
    (2 ∉ types → 1 ∈ types →
      negotiateSecurity ([types.length] :: types :: rest) = .ok (1, types, rest)) ∧
    (2 ∉ types → 1 ∉ types →
      negotiateSecurity ([types.length] :: types :: rest) =
        .error (.unsupportedSecurity types)) := by
  have hlen0 : types.length ≠ 0 := by
    simpa [List.length_eq_zero] using hne
  have h1 : recvRaw 1 ([types.length] :: types :: rest) =
      ([types.length], types :: rest) := by rfl
  have h2 : recvRaw types.length (types :: rest) = (types, rest) := by
    simp [recvRaw, List.take_length]
  have hu : unpackU8 [types.length] = .ok types.length := by
    simp [unpackU8, beNat]
  refine ⟨?_, ?_, ?_⟩
  · intro hmem
    simp [negotiateSecurity, h1, hu, hlen0, h2, hmem]
  · intro hnot hmem
    simp [negotiateSecurity, h1, hu, hlen0, h2, hnot, hmem]
  · intro hnot1 hnot2
    simp [negotiateSecurity, h1, hu, hlen0, h2, hnot1, hnot2]

/-- C5: if the security-type count byte is zero the handshake reads a
4-byte big-endian length plus that many bytes of error text and fails
with the connection-rejected error carrying the server's message;
otherwise type 2 (VNCAuth) is selected when offered, else type 1 (None)
when offered, else negotiation fails with the unsupported-security error
carrying the offered types. -/
theorem negotiateSecurity_spec (m types : List ℕ) (rest rest2 : List (List ℕ))
    (hm : m.length < 4294967296) (hne : types ≠ []) (hlt : types.length < 256) :
    negotiateSecurity ([0] :: (be4 m.length ++ m) :: rest) =
      .error (.connectionRejected m) ∧
    (2 ∈ types →
      negotiateSecurity ([types.length] :: types :: rest2) = .ok (2, types, rest2)) ∧
    (2 ∉ types → 1 ∈ types →
      negotiateSecurity ([types.length] :: types :: rest2) = .ok (1, types, rest2)) ∧
    (2 ∉ types → 1 ∉ types →
      negotiateSecurity ([types.length] :: types :: rest2) =
        .error (.unsupportedSecurity types)) :=
  ⟨negotiateSecurity_rejected m rest hm,
   (negotiateSecurity_select types rest2 hne hlt).1,
   (negotiateSecurity_select types rest2 hne hlt).2.1,
   (negotiateSecurity_select types rest2 hne hlt).2.2⟩

theorem negotiateSecurity_spec_witness :
    negotiateSecurity [[0], [0, 0, 0, 1, 65]] =
      .error (.connectionRejected [65]) ∧
    negotiateSecurity [[2], [5, 2]] = .ok (2, [5, 2], []) ∧
    negotiateSecurity [[1], [5]] = .error (.unsupportedSecurity [5]) := by
  have h := negotiateSecurity_spec [65] [5, 2] [] [] (by decide) (by decide) (by decide)
  have h2 := negotiateSecurity_spec [65] [5] [] [] (by decide) (by decide) (by decide)
  exact ⟨h.1, h.2.1 (by decide), h2.2.2.2 (by decide) (by decide)⟩

/-- C7 counterexample: the handshake reads the 12-byte protocol version
with bare `recv`; on a stream whose first delivery chunk holds only 4
bytes it silently accepts the 4-byte short read and completes the
handshake successfully instead of consuming the complete message or
failing. -/
theorem handshakeShortRead_cex :
    handshakeScreenshot (fun _ b => b) []
        [[82, 70, 66, 32], [1], [1],
         [3, 32, 2, 88] ++ List.replicate 16 0 ++ [0, 0, 0, 0]] =
      .ok ⟨[82, 70, 66, 32], 800, 600, 0, [], []⟩ ∧
    ([82, 70, 66, 32] : List ℕ).length ≠ 12 :=
  ⟨by rfl, by decide⟩

theorem processRects_eq (width : ℕ) : ∀ (n : ℕ) (s fb : List ℕ),
    rectsAllRaw n s = true →
    processRectsScreenshot width n s fb = processRectsControl width n s fb := by
  intro n
  induction n with
  | zero => intro s fb _; rfl
  | succ m ih =>
    intro s fb hraw
    match h12 : readExact 12 s with
    | none =>
      simp [processRectsScreenshot, processRectsControl, h12]
    | some (hd, s1) =>
      simp only [rectsAllRaw, h12] at hraw
      by_cases henc : beSigned32 (hd.drop 8) = 0
      · simp only [henc, if_pos rfl] at hraw
        match hpl : readExact (beNat ((hd.drop 4).take 2) * beNat ((hd.drop 6).take 2) * 4) s1 with
        | none =>
          simp [processRectsScreenshot, processRectsControl, h12, henc, hpl]
        | some (rd, s2) =>
          simp only [hpl] at hraw
          simp [processRectsScreenshot, processRectsControl, h12, henc, hpl, ih _ _ hraw]
      · simp [henc] at hraw

theorem recvLoop_eq (width : ℕ) : ∀ (fuel : ℕ) (s fb : List ℕ),
    streamAllRaw fuel s = true →
    recvLoopScreenshot width fuel s fb = recvLoopControl width fuel s fb := by
  intro fuel
  induction fuel with
  | zero => intro s fb _; rfl
  | succ f ih =>
    intro s fb hraw
    match h1 : readExact 1 s with
    | none => simp [recvLoopScreenshot, recvLoopControl, h1]
    | some (tb, s1) =>
      simp only [streamAllRaw, h1] at hraw
      by_cases ht0 : beNat tb = 0
      · simp only [ht0, if_pos rfl] at hraw
        match h2 : readExact 1 s1 with
        | none => simp [recvLoopScreenshot, recvLoopControl, h1, ht0, h2]
        | some (pb, s2) =>
          simp only [h2] at hraw
          match h3 : readExact 2 s2 with
          | none => simp [recvLoopScreenshot, recvLoopControl, h1, ht0, h2, h3]
          | some (nb, s3) =>
            simp only [h3] at hraw
            simp [recvLoopScreenshot, recvLoopControl, h1, ht0, h2, h3,
              processRects_eq width _ _ _ hraw]
      · by_cases ht1 : beNat tb = 1
        · simp only [ht0, ht1, if_neg, if_pos rfl] at hraw
          match h2 : readExact 1 s1 with
          | none => simp [recvLoopScreenshot, recvLoopControl, h1, ht0, ht1, h2]
          | some (pb, s2) =>
            simp only [h2] at hraw
            match h3 : readExact 2 s2 with
            | none => simp [recvLoopScreenshot, recvLoopControl, h1, ht0, ht1, h2, h3]
            | some (fc, s3) =>
              simp only [h3] at hraw
              match h4 : readExact 2 s3 with
              | none => simp [recvLoopScreenshot, recvLoopControl, h1, ht0, ht1, h2, h3, h4]
              | some (cb, s4) =>
                simp only [h4] at hraw
                match h5 : readExact (beNat cb * 6) s4 with
                | none =>
                  simp [recvLoopScreenshot, recvLoopControl, h1, ht0, ht1, h2, h3, h4, h5]
                | some (dd, s5) =>
                  simp only [h5] at hraw
                  simp [recvLoopScreenshot, recvLoopControl, h1, ht0, ht1, h2, h3, h4, h5,
                    ih _ _ hraw]
        · by_cases ht2 : beNat tb = 2
          · simp only [ht0, ht1, ht2, if_neg, if_pos rfl] at hraw
            simp [recvLoopScreenshot, recvLoopControl, h1, ht0, ht1, ht2, ih _ _ hraw]
          · by_cases ht3 : beNat tb = 3
            · simp only [ht0, ht1, ht2, ht3, if_neg, if_pos rfl] at hraw
              match h2 : readExact 3 s1 with
              | none => simp [recvLoopScreenshot, recvLoopControl, h1, ht0, ht1, ht2, ht3, h2]
              | some (pb, s2) =>
                simp only [h2] at hraw
                match h3 : readExact 4 s2 with
                | none =>
                  simp [recvLoopScreenshot, recvLoopControl, h1, ht0, ht1, ht2, ht3, h2, h3]
                | some (lb, s3) =>
                  simp only [h3] at hraw
                  match h4 : readExact (beNat lb) s3 with
                  | none =>
                    simp [recvLoopScreenshot, recvLoopControl, h1, ht0, ht1, ht2, ht3, h2, h3, h4]
                  | some (dd, s4) =>
                    simp only [h4] at hraw
                    simp [recvLoopScreenshot, recvLoopControl, h1, ht0, ht1, ht2, ht3,
                      h2, h3, h4, ih _ _ hraw]
            · simp [recvLoopScreenshot, recvLoopControl, h1, ht0, ht1, ht2, ht3]

/-- C10 (amended): on any server stream in which every rectangle of every
FramebufferUpdate encountered is Raw-encoded, the standalone tool's
receive loop and the connection class's receive loop consume the same
bytes and produce identical pixel buffers.  (On a stream containing a
non-Raw rectangle the two diverge — see `captureDivergence_cex`.) -/
theorem captureEquiv (width height : ℕ) (s : List ℕ)
    (h : streamAllRaw (s.length + 1) s = true) :
    captureScreenshot width height s = captureControl width height s :=
  recvLoop_eq width (s.length + 1) s (List.replicate (width * height * 4) 0) h

theorem captureEquiv_witness :
    captureScreenshot 1 1 [0, 0, 0, 1, 0, 0, 0, 0, 0, 1, 0, 1, 0, 0, 0, 0, 9, 9, 9, 9] =
      captureControl 1 1 [0, 0, 0, 1, 0, 0, 0, 0, 0, 1, 0, 1, 0, 0, 0, 0, 9, 9, 9, 9] :=
  captureEquiv 1 1 _ (by rfl)

/-- C10 counterexample: on an update whose first rectangle has a non-Raw
encoding, the standalone tool's loop stops (buffer all zero, rest of the
stream unconsumed) while the connection class's loop continues parsing
and applies the following rectangle (buffer `[9,9,9,9]`, stream fully
consumed): the two capture implementations are not behaviorally
equivalent. -/
theorem captureDivergence_cex :
    captureScreenshot 1 1
        ([0, 0, 0, 2] ++ [0, 0, 0, 0, 0, 1, 0, 1, 0, 0, 0, 1] ++
         [0, 0, 0, 0, 0, 1, 0, 1, 0, 0, 0, 0] ++ [9, 9, 9, 9]) =
      .ok (List.replicate 4 0, [0, 0, 0, 0, 0, 1, 0, 1, 0, 0, 0, 0] ++ [9, 9, 9, 9]) ∧
    captureControl 1 1
        ([0, 0, 0, 2] ++ [0, 0, 0, 0, 0, 1, 0, 1, 0, 0, 0, 1] ++
         [0, 0, 0, 0, 0, 1, 0, 1, 0, 0, 0, 0] ++ [9, 9, 9, 9]) =
      .ok ([9, 9, 9, 9], []) ∧
    (List.replicate 4 0 : List ℕ) ≠ [9, 9, 9, 9] :=
  ⟨by rfl, by rfl, by decide⟩

/-- C2 counterexample: on an update carrying a non-Raw rectangle followed
by a Raw rectangle at pixel (1,0) with payload `[1,2,3,4]`, the capture
returns the all-zero buffer — the later rectangle is NOT applied (byte 4
would be 1 if it were), refuting the claim that rectangles after the
unsupported one are still applied. -/
theorem captureAbortsNonRaw_cex :
    captureScreenshot 2 1
        ([0, 0, 0, 2] ++ [0, 0, 0, 0, 0, 1, 0, 1, 0, 0, 0, 1] ++
         [0, 1, 0, 0, 0, 1, 0, 1, 0, 0, 0, 0] ++ [1, 2, 3, 4]) =
      .ok (List.replicate 8 0, [0, 1, 0, 0, 0, 1, 0, 1, 0, 0, 0, 0] ++ [1, 2, 3, 4]) ∧
    byteAt (List.replicate 8 0) 4 ≠ 1 :=
  ⟨by rfl, by decide⟩

theorem length_setSlice (buf : List ℕ) (start : ℕ) (data : List ℕ)
    (h : start + data.length ≤ buf.length) :
    (setSlice buf start data).length = buf.length := by
  simp [setSlice]
  omega

theorem byteAt_setSlice (buf data : List ℕ) (start p : ℕ)
    (h : start + data.length ≤ buf.length) :
    byteAt (setSlice buf start data) p =
      if start ≤ p ∧ p < start + data.length then byteAt data (p - start)
      else byteAt buf p := by
  have hst : min start buf.length = start := by omega
  have hen : min (start + data.length) buf.length = start + data.length := by omega
  have hlt : (buf.take start).length = start := by
    simp
    omega
  have lenAD : ((buf.take start) ++ data).length = start + data.length := by
    simp
    omega
  rw [setSlice, hst, hen, byteAt_append, lenAD]
  by_cases h2 : p < start + data.length
  · rw [if_pos h2, byteAt_append, hlt]
    by_cases h1 : p < start
    · rw [if_pos h1, byteAt_take _ _ _ h1, if_neg (by omega)]
    · rw [if_neg h1, if_pos (by omega)]
  · rw [if_neg h2, byteAt_drop, if_neg (by omega)]
    congr 1
    omega

theorem rowStart_bound (width height rx ry rw rh row : ℕ)
    (hw : rx + rw ≤ width) (hh : ry + rh ≤ height) (hrow : row < rh) :
    ((ry + row) * width + rx) * 4 + rw * 4 ≤ width * height * 4 := by
  have h1 : (ry + row) * width + rx + rw ≤ (ry + row + 1) * width := by
    have : (ry + row + 1) * width = (ry + row) * width + width := by ring
    omega
  have h2 : (ry + row + 1) * width ≤ height * width :=
    Nat.mul_le_mul_right width (by omega)
  calc ((ry + row) * width + rx) * 4 + rw * 4
      = ((ry + row) * width + rx + rw) * 4 := by ring
    _ ≤ ((ry + row + 1) * width) * 4 := Nat.mul_le_mul_right 4 h1
    _ ≤ (height * width) * 4 := Nat.mul_le_mul_right 4 h2
    _ = width * height * 4 := by ring

theorem applyRawRect_succ (width : ℕ) (fb : List ℕ) (rx ry rw k : ℕ) (rd : List ℕ) :
    applyRawRect width fb rx ry rw (k + 1) rd =
      setSlice (applyRawRect width fb rx ry rw k rd) (((ry + k) * width + rx) * 4)
        ((rd.drop (k * rw * 4)).take (rw * 4)) := by
  simp [applyRawRect, List.range_succ]

theorem applyRawRect_length (width height : ℕ) (fb : List ℕ) (rx ry rw rh : ℕ)
    (rd : List ℕ) (hw : rx + rw ≤ width) (hh : ry + rh ≤ height)
    (hfb : fb.length = width * height * 4) :
    (applyRawRect width fb rx ry rw rh rd).length = width * height * 4 := by
  suffices h : ∀ k, k ≤ rh → (applyRawRect width fb rx ry rw k rd).length = width * height * 4 by
    exact h rh le_rfl
  intro k hk
  induction k with
  | zero => simpa [applyRawRect] using hfb
  | succ j ihj =>
    have hb := ihj (by omega)
    have hdl : ((rd.drop (j * rw * 4)).take (rw * 4)).length ≤ rw * 4 := by
      simp
    have hbound : ((ry + j) * width + rx) * 4 + ((rd.drop (j * rw * 4)).take (rw * 4)).length ≤
        (applyRawRect width fb rx ry rw j rd).length := by
      have := rowStart_bound width height rx ry rw rh j hw hh (by omega)
      omega
    rw [applyRawRect_succ, length_setSlice _ _ _ hbound, hb]

theorem processRectsScreenshot_length (width height : ℕ) :
    ∀ (n : ℕ) (s fb fb2 r : List ℕ), fb.length = width * height * 4 →
    rectsInBounds width height n s = true →
    processRectsScreenshot width n s fb = .ok (fb2, r) →
    fb2.length = width * height * 4 := by
  intro n
  induction n with
  | zero =>
    intro s fb fb2 r hfb _ hok
    simp only [processRectsScreenshot] at hok
    cases hok
    exact hfb
  | succ m ih =>
    intro s fb fb2 r hfb hin hok
    match h12 : readExact 12 s with
    | none => simp [processRectsScreenshot, h12] at hok
    | some (hd, s1) =>
      simp only [rectsInBounds, h12] at hin
      simp only [processRectsScreenshot, h12] at hok
      by_cases henc : beSigned32 (hd.drop 8) = 0
      · rw [if_pos henc] at hin hok
        match hpl : readExact (beNat ((hd.drop 4).take 2) * beNat ((hd.drop 6).take 2) * 4) s1 with
        | none => simp [hpl] at hok
        | some (rd, s2) =>
          simp only [hpl] at hin hok
          simp only [Bool.and_eq_true, decide_eq_true_eq] at hin
          exact ih s2 _ fb2 r
            (applyRawRect_length width height fb _ _ _ _ rd hin.1.1 hin.1.2 hfb)
            hin.2 hok
      · rw [if_neg henc] at hok
        cases hok
        exact hfb

theorem recvLoopScreenshot_length (width height : ℕ) :
    ∀ (fuel : ℕ) (s fb fb2 r : List ℕ), fb.length = width * height * 4 →
    streamInBounds width height fuel s = true →
    recvLoopScreenshot width fuel s fb = .ok (fb2, r) →
    fb2.length = width * height * 4 := by
  intro fuel
  induction fuel with
  | zero => intro s fb fb2 r _ _ hok; simp [recvLoopScreenshot] at hok
  | succ f ih =>
    intro s fb fb2 r hfb hin hok
    match h1 : readExact 1 s with
    | none => simp [recvLoopScreenshot, h1] at hok
    | some (tb, s1) =>
      simp only [streamInBounds, h1] at hin
      simp only [recvLoopScreenshot, h1] at hok
      by_cases ht0 : beNat tb = 0
      · simp only [ht0, if_pos rfl] at hin hok
        match h2 : readExact 1 s1 with
        | none => simp [h2] at hok
        | some (pb, s2) =>
          simp only [h2] at hin hok
          match h3 : readExact 2 s2 with
          | none => simp [h3] at hok
          | some (nb, s3) =>
            simp only [h3] at hin hok
            exact processRectsScreenshot_length width height _ _ _ _ _ hfb hin hok
      · by_cases ht1 : beNat tb = 1
        · simp only [ht0, ht1, if_neg, if_pos rfl, ite_false, ite_true] at hin hok
          match h2 : readExact 1 s1 with
          | none => simp [h2] at hok
          | some (pb, s2) =>
            simp only [h2] at hin hok
            match h3 : readExact 2 s2 with
            | none => simp [h3] at hok
            | some (fc, s3) =>
              simp only [h3] at hin hok
              match h4 : readExact 2 s3 with
              | none => simp [h4] at hok
              | some (cb, s4) =>
                simp only [h4] at hin hok
                match h5 : readExact (beNat cb * 6) s4 with
                | none => simp [h5] at hok
                | some (dd, s5) =>
                  simp only [h5] at hin hok
                  exact ih s5 fb fb2 r hfb hin hok
        · by_cases ht2 : beNat tb = 2
          · simp only [ht0, ht1, ht2, if_neg, if_pos rfl, ite_false, ite_true] at hin hok
            exact ih s1 fb fb2 r hfb hin hok
          · by_cases ht3 : beNat tb = 3
            · simp only [ht0, ht1, ht2, ht3, if_neg, if_pos rfl, ite_false, ite_true] at hin hok
              match h2 : readExact 3 s1 with
              | none => simp [h2] at hok
              | some (pb, s2) =>
                simp only [h2] at hin hok
                match h3 : readExact 4 s2 with
                | none => simp [h3] at hok
                | some (lb, s3) =>
                  simp only [h3] at hin hok
                  match h4 : readExact (beNat lb) s3 with
                  | none => simp [h4] at hok
                  | some (dd, s4) =>
                    simp only [h4] at hin hok
                    exact ih s4 fb fb2 r hfb hin hok
            · simp only [ht0, ht1, ht2, ht3, if_neg, ite_false] at hok
              cases hok
              exact hfb


theorem processRectsControl_length (width height : ℕ) :
    ∀ (n : ℕ) (s fb fb2 r : List ℕ), fb.length = width * height * 4 →
    rectsInBoundsControl width height n s = true →
    processRectsControl width n s fb = .ok (fb2, r) →
    fb2.length = width * height * 4 := by
  intro n
  induction n with
  | zero =>
    intro s fb fb2 r hfb _ hok
    simp only [processRectsControl] at hok
    cases hok
    exact hfb
  | succ m ih =>
    intro s fb fb2 r hfb hin hok
    match h12 : readExact 12 s with
    | none => simp [processRectsControl, h12] at hok
    | some (hd, s1) =>
      simp only [rectsInBoundsControl, h12] at hin
      simp only [processRectsControl, h12] at hok
      by_cases henc : beSigned32 (hd.drop 8) = 0
      · rw [if_pos henc] at hin hok
        match hpl : readExact (beNat ((hd.drop 4).take 2) * beNat ((hd.drop 6).take 2) * 4) s1 with
        | none => simp [hpl] at hok
        | some (rd, s2) =>
          simp only [hpl] at hin hok
          simp only [Bool.and_eq_true, decide_eq_true_eq] at hin
          exact ih s2 _ fb2 r
            (applyRawRect_length width height fb _ _ _ _ rd hin.1.1 hin.1.2 hfb)
            hin.2 hok
      · rw [if_neg henc] at hin hok
        exact ih s1 fb fb2 r hfb hin hok

theorem recvLoopControl_length (width height : ℕ) :
    ∀ (fuel : ℕ) (s fb fb2 r : List ℕ), fb.length = width * height * 4 →
    streamInBoundsControl width height fuel s = true →
    recvLoopControl width fuel s fb = .ok (fb2, r) →
    fb2.length = width * height * 4 := by
  intro fuel
  induction fuel with
  | zero => intro s fb fb2 r _ _ hok; simp [recvLoopControl] at hok
  | succ f ih =>
    intro s fb fb2 r hfb hin hok
    match h1 : readExact 1 s with
    | none => simp [recvLoopControl, h1] at hok
    | some (tb, s1) =>
      simp only [streamInBoundsControl, h1] at hin
      simp only [recvLoopControl, h1] at hok
      by_cases ht0 : beNat tb = 0
      · simp only [ht0, if_pos rfl] at hin hok
        match h2 : readExact 1 s1 with
        | none => simp [h2] at hok
        | some (pb, s2) =>
          simp only [h2] at hin hok
          match h3 : readExact 2 s2 with
          | none => simp [h3] at hok
          | some (nb, s3) =>
            simp only [h3] at hin hok
            exact processRectsControl_length width height _ _ _ _ _ hfb hin hok
      · by_cases ht1 : beNat tb = 1
        · simp only [ht0, ht1, if_neg, if_pos rfl, ite_false, ite_true] at hin hok
          match h2 : readExact 1 s1 with
          | none => simp [h2] at hok
          | some (pb, s2) =>
            simp only [h2] at hin hok
            match h3 : readExact 2 s2 with
            | none => simp [h3] at hok
            | some (fc, s3) =>
              simp only [h3] at hin hok
              match h4 : readExact 2 s3 with
              | none => simp [h4] at hok
              | some (cb, s4) =>
                simp only [h4] at hin hok
                match h5 : readExact (beNat cb * 6) s4 with
                | none => simp [h5] at hok
                | some (dd, s5) =>
                  simp only [h5] at hin hok
                  exact ih s5 fb fb2 r hfb hin hok
        · by_cases ht2 : beNat tb = 2
          · simp only [ht0, ht1, ht2, if_neg, if_pos rfl, ite_false, ite_true] at hin hok
            exact ih s1 fb fb2 r hfb hin hok
          · by_cases ht3 : beNat tb = 3
            · simp only [ht0, ht1, ht2, ht3, if_neg, if_pos rfl, ite_false, ite_true] at hin hok
              match h2 : readExact 3 s1 with
              | none => simp [h2] at hok
              | some (pb, s2) =>
                simp only [h2] at hin hok
                match h3 : readExact 4 s2 with
                | none => simp [h3] at hok
                | some (lb, s3) =>
                  simp only [h3] at hin hok
                  match h4 : readExact (beNat lb) s3 with
                  | none => simp [h4] at hok
                  | some (dd, s4) =>
                    simp only [h4] at hin hok
                    exact ih s4 fb fb2 r hfb hin hok
            · simp only [ht0, ht1, ht2, ht3, if_neg, ite_false] at hok
              cases hok
              exact hfb

/-- C6 (amended): for each of the two capture implementations — the
standalone tool and the connection class — whenever the capture returns
a buffer and every Raw rectangle header that implementation parses
declares a region inside the negotiated display, the returned buffer has
length exactly `width * height * 4`, including when the update contains
rectangles with unsupported encodings (the standalone tool aborts there;
the connection class skips the header and keeps parsing, and the bound
applies to the headers it actually reads).  A Raw rectangle reaching
beyond the display can grow the buffer instead (see
`bufferGrowth_cex`). -/
theorem captureBufferSize (width height : ℕ) (s : List ℕ) :
    (∀ fb2 r, streamInBounds width height (s.length + 1) s = true →
      captureScreenshot width height s = .ok (fb2, r) →
      fb2.length = width * height * 4) ∧
    (∀ fb2 r, streamInBoundsControl width height (s.length + 1) s = true →
      captureControl width height s = .ok (fb2, r) →
      fb2.length = width * height * 4) := by
  constructor
  · intro fb2 r hin hok
    exact recvLoopScreenshot_length width height (s.length + 1) s _ fb2 r
      (by simp) hin hok
  · intro fb2 r hin hok
    exact recvLoopControl_length width height (s.length + 1) s _ fb2 r
      (by simp) hin hok

theorem captureBufferSize_witness :
    captureScreenshot 1 1 [0, 0, 0, 1, 0, 0, 0, 0, 0, 1, 0, 1, 0, 0, 0, 1] =
      .ok (List.replicate 4 0, []) ∧
    captureControl 1 1 [0, 0, 0, 1, 0, 0, 0, 0, 0, 1, 0, 1, 0, 0, 0, 1] =
      .ok (List.replicate 4 0, []) ∧
    (List.replicate 4 0).length = 1 * 1 * 4 ∧
    (List.replicate 4 0).length = 1 * 1 * 4 := by
  refine ⟨by rfl, by rfl, ?_, ?_⟩
  · exact (captureBufferSize 1 1 [0, 0, 0, 1, 0, 0, 0, 0, 0, 1, 0, 1, 0, 0, 0, 1]).1
      (List.replicate 4 0) [] (by rfl) (by rfl)
  · exact (captureBufferSize 1 1 [0, 0, 0, 1, 0, 0, 0, 0, 0, 1, 0, 1, 0, 0, 0, 1]).2
      (List.replicate 4 0) [] (by rfl) (by rfl)

/-- C6 counterexample: a Raw rectangle declaring extent 2x1 on a 1x1
display grows the buffer in both capture implementations — bytearray
slice assignment extends it to 8 bytes, refuting the claim that the
buffer always has length `width * height * 4` even for out-of-bounds
rectangles. -/
theorem bufferGrowth_cex :
    captureScreenshot 1 1
        ([0, 0, 0, 1] ++ [0, 0, 0, 0, 0, 2, 0, 1, 0, 0, 0, 0] ++
         [1, 2, 3, 4, 5, 6, 7, 8]) =
      .ok ([1, 2, 3, 4, 5, 6, 7, 8], []) ∧
    captureControl 1 1
        ([0, 0, 0, 1] ++ [0, 0, 0, 0, 0, 2, 0, 1, 0, 0, 0, 0] ++
         [1, 2, 3, 4, 5, 6, 7, 8]) =
      .ok ([1, 2, 3, 4, 5, 6, 7, 8], []) ∧
    ([1, 2, 3, 4, 5, 6, 7, 8] : List ℕ).length ≠ 1 * 1 * 4 :=
  ⟨by rfl, by rfl, by decide⟩

theorem row_decomp (width rx ry rw row j p : ℕ) (hw : rx + rw ≤ width)
    (hj : j < rw * 4) (hp : p = ((ry + row) * width + rx) * 4 + j) :
    p / 4 / width = ry + row ∧ p / 4 % width = rx + j / 4 ∧ p % 4 = j % 4 := by
  have hrw : 0 < rw := by omega
  have hwidth : 0 < width := by omega
  have hj4 : j / 4 < rw := by omega
  have hxlt : rx + j / 4 < width := by omega
  have hp4 : p / 4 = (ry + row) * width + rx + j / 4 := by omega
  have hpm : p % 4 = j % 4 := by omega
  have hrearr : p / 4 = (rx + j / 4) + width * (ry + row) := by
    rw [Nat.mul_comm width (ry + row)]
    omega
  refine ⟨?_, ?_, hpm⟩
  · rw [hrearr, Nat.add_mul_div_left _ _ hwidth, Nat.div_eq_of_lt hxlt]
    omega
  · rw [hrearr, Nat.add_mul_mod_self_left, Nat.mod_eq_of_lt hxlt]

theorem rectIdx_eq (width : ℕ) (r : RawRect) (row j p : ℕ) (hw : r.x + r.w ≤ width)
    (hj : j < r.w * 4) (hp : p = ((r.y + row) * width + r.x) * 4 + j) :
    rectIdx width r p = row * (r.w * 4) + j := by
  obtain ⟨hqy, hqx, hpm⟩ := row_decomp width r.x r.y r.w row j p hw hj hp
  rw [rectIdx, hqy, hqx, hpm]
  have h1 : r.y + row - r.y = row := by omega
  have h2 : r.x + j / 4 - r.x = j / 4 := by omega
  rw [h1, h2]
  have h3 : j = 4 * (j / 4) + j % 4 := (Nat.div_add_mod j 4).symm
  calc (row * r.w + j / 4) * 4 + j % 4 = row * (r.w * 4) + (4 * (j / 4) + j % 4) := by ring_nf
    _ = row * (r.w * 4) + j := by rw [← h3]

theorem rectCovers_iff (width : ℕ) (r : RawRect) (p : ℕ) (hw : r.x + r.w ≤ width) :
    rectCovers width r p = true ↔
    ∃ row j, row < r.h ∧ j < r.w * 4 ∧ p = ((r.y + row) * width + r.x) * 4 + j := by
  constructor
  · intro hc
    simp only [rectCovers, Bool.and_eq_true, decide_eq_true_eq] at hc
    obtain ⟨⟨⟨hx1, hx2⟩, hy1⟩, hy2⟩ := hc
    refine ⟨p / 4 / width - r.y, (p / 4 % width - r.x) * 4 + p % 4, by omega, ?_, ?_⟩
    · have : p % 4 < 4 := Nat.mod_lt _ (by omega)
      omega
    · have hq : p = (p / 4) * 4 + p % 4 := by omega
      have hwpos : 0 < width := by omega
      have hsplit : p / 4 = width * (p / 4 / width) + p / 4 % width :=
        (Nat.div_add_mod (p / 4) width).symm
      have hyrow : r.y + (p / 4 / width - r.y) = p / 4 / width := by omega
      rw [hyrow]
      have : (p / 4 / width) * width = width * (p / 4 / width) := Nat.mul_comm _ _
      omega
  · rintro ⟨row, j, hrow, hj, hp⟩
    obtain ⟨hqy, hqx, _⟩ := row_decomp width r.x r.y r.w row j p hw hj hp
    have hj4 : j / 4 < r.w := by omega
    simp only [rectCovers, Bool.and_eq_true, decide_eq_true_eq]
    refine ⟨⟨⟨?_, ?_⟩, ?_⟩, ?_⟩ <;> omega

theorem applyRawRect_rows (width height : ℕ) (fb : List ℕ) (r : RawRect) (p : ℕ)
    (hw : r.x + r.w ≤ width) (hh : r.y + r.h ≤ height)
    (hfb : fb.length = width * height * 4) (hrd : r.data.length = r.w * r.h * 4) :
    ∀ k, k ≤ r.h →
    ((∃ row j, row < k ∧ j < r.w * 4 ∧ p = ((r.y + row) * width + r.x) * 4 + j) →
      byteAt (applyRawRect width fb r.x r.y r.w k r.data) p = rValue width r p) ∧
    ((∀ row j, row < k → j < r.w * 4 → p ≠ ((r.y + row) * width + r.x) * 4 + j) →
      byteAt (applyRawRect width fb r.x r.y r.w k r.data) p = byteAt fb p) := by
  intro k hk
  induction k with
  | zero =>
    constructor
    · rintro ⟨row, j, hrow, -, -⟩
      omega
    · intro _
      simp [applyRawRect]
  | succ k ih =>
    have ihk := ih (by omega)
    have hlenA : (applyRawRect width fb r.x r.y r.w k r.data).length = width * height * 4 :=
      applyRawRect_length width height fb r.x r.y r.w k r.data hw (by omega) hfb
    have hc : r.w * 4 ≤ r.data.length - k * (r.w * 4) := by
      have h1 : (k + 1) * (r.w * 4) ≤ r.h * (r.w * 4) :=
        Nat.mul_le_mul_right _ (by omega)
      have h2 : r.data.length = r.h * (r.w * 4) := by
        rw [hrd]
        ring
      have h3 : (k + 1) * (r.w * 4) = k * (r.w * 4) + r.w * 4 := by ring
      omega
    have hdl : ((r.data.drop (k * r.w * 4)).take (r.w * 4)).length = r.w * 4 := by
      simp only [List.length_take, List.length_drop]
      have : k * r.w * 4 = k * (r.w * 4) := by ring
      omega
    have hbound : ((r.y + k) * width + r.x) * 4 +
        ((r.data.drop (k * r.w * 4)).take (r.w * 4)).length ≤
        (applyRawRect width fb r.x r.y r.w k r.data).length := by
      rw [hdl, hlenA]
      exact rowStart_bound width height r.x r.y r.w r.h k hw hh (by omega)
    have hset := byteAt_setSlice (applyRawRect width fb r.x r.y r.w k r.data)
      ((r.data.drop (k * r.w * 4)).take (r.w * 4)) (((r.y + k) * width + r.x) * 4) p hbound
    rw [applyRawRect_succ] at *
    constructor
    · rintro ⟨row, j, hrow, hj, hp⟩
      by_cases hwin : ((r.y + k) * width + r.x) * 4 ≤ p ∧
          p < ((r.y + k) * width + r.x) * 4 + ((r.data.drop (k * r.w * 4)).take (r.w * 4)).length
      · rw [hset, if_pos hwin]
        set st := ((r.y + k) * width + r.x) * 4 with hst
        have hjk : p - st < r.w * 4 := by
          rw [hdl] at hwin
          omega
        rw [byteAt_take _ _ _ hjk, byteAt_drop]
        have hidx := rectIdx_eq width r k (p - st) p hw hjk (by omega)
        rw [rValue, hidx]
        congr 1
        ring_nf
      · rw [hdl] at hwin
        have hrowk : row < k := by
          rcases Nat.lt_succ_iff_lt_or_eq.mp hrow with h | h
          · exact h
          · subst h
            exfalso
            apply hwin
            constructor <;> omega
        rw [hset, if_neg (by rw [hdl]; omega)]
        exact ihk.1 ⟨row, j, hrowk, hj, hp⟩
    · intro hnone
      have hnwin : ¬ (((r.y + k) * width + r.x) * 4 ≤ p ∧
          p < ((r.y + k) * width + r.x) * 4 + ((r.data.drop (k * r.w * 4)).take (r.w * 4)).length) := by
        rw [hdl]
        intro ⟨h1, h2⟩
        exact hnone k (p - ((r.y + k) * width + r.x) * 4) (by omega) (by omega) (by omega)
      rw [hset, if_neg hnwin]
      exact ihk.2 (fun row j hrow hj => hnone row j (by omega) hj)

theorem applyRawRect_byteAt (width height : ℕ) (fb : List ℕ) (r : RawRect) (p : ℕ)
    (hw : r.x + r.w ≤ width) (hh : r.y + r.h ≤ height)
    (hfb : fb.length = width * height * 4) (hrd : r.data.length = r.w * r.h * 4) :
    byteAt (applyRawRect width fb r.x r.y r.w r.h r.data) p =
      if rectCovers width r p then rValue width r p else byteAt fb p := by
  have h := applyRawRect_rows width height fb r p hw hh hfb hrd r.h le_rfl
  by_cases hc : rectCovers width r p = true
  · rw [if_pos hc]
    exact h.1 ((rectCovers_iff width r p hw).mp hc)
  · rw [if_neg hc]
    apply h.2
    intro row j hrow hj hp
    exact hc ((rectCovers_iff width r p hw).mpr ⟨row, j, hrow, hj, hp⟩)

theorem composite_length (width height : ℕ) :
    ∀ (rects : List RawRect) (fb : List ℕ),
    (∀ r ∈ rects, rectInBounds width height r) → fb.length = width * height * 4 →
    (composite width fb rects).length = width * height * 4 := by
  intro rects
  induction rects with
  | nil => intro fb _ hfb; simpa [composite] using hfb
  | cons r rs ih =>
    intro fb hb hfb
    have hr := hb r (by simp)
    exact ih _ (fun q hq => hb q (by simp [hq]))
      (applyRawRect_length width height fb r.x r.y r.w r.h r.data hr.1 hr.2.1 hfb)

theorem composite_byteAt (width height : ℕ) :
    ∀ (rects : List RawRect) (fb : List ℕ) (p : ℕ),
    (∀ r ∈ rects, rectInBounds width height r) → fb.length = width * height * 4 →
    byteAt (composite width fb rects) p =
      (match rects.reverse.find? (fun r => rectCovers width r p) with
       | some q => rValue width q p
       | none => byteAt fb p) := by
  intro rects
  induction rects with
  | nil => intro fb p _ _; simp [composite]
  | cons r rs ih =>
    intro fb p hb hfb
    have hr := hb r (by simp)
    have hfb2 : (applyRawRect width fb r.x r.y r.w r.h r.data).length = width * height * 4 :=
      applyRawRect_length width height fb r.x r.y r.w r.h r.data hr.1 hr.2.1 hfb
    have hstep : composite width fb (r :: rs) =
        composite width (applyRawRect width fb r.x r.y r.w r.h r.data) rs := rfl
    rw [hstep, ih _ p (fun q hq => hb q (by simp [hq])) hfb2]
    rw [List.reverse_cons, List.find?_append]
    match hf : rs.reverse.find? (fun q => rectCovers width q p) with
    | some q => simp [hf, Option.or]
    | none =>
      simp only [hf, Option.or]
      rw [applyRawRect_byteAt width height fb r p hr.1 hr.2.1 hfb hr.2.2.1]
      match hc : rectCovers width r p with
      | true => simp [List.find?, hc]
      | false => simp [List.find?, hc]

theorem beNat_hdr_x (r : RawRect) (h : r.x < 65536) :
    beNat ((encodeRectHeader r).take 2) = r.x := by
  simp [encodeRectHeader, beNat]
  omega

theorem beNat_hdr_y (r : RawRect) (h : r.y < 65536) :
    beNat (((encodeRectHeader r).drop 2).take 2) = r.y := by
  simp [encodeRectHeader, beNat]
  omega

theorem beNat_hdr_w (r : RawRect) (h : r.w < 65536) :
    beNat (((encodeRectHeader r).drop 4).take 2) = r.w := by
  simp [encodeRectHeader, beNat]
  omega

theorem beNat_hdr_h (r : RawRect) (h : r.h < 65536) :
    beNat (((encodeRectHeader r).drop 6).take 2) = r.h := by
  simp [encodeRectHeader, beNat]
  omega

theorem enc_hdr_raw (r : RawRect) : beSigned32 ((encodeRectHeader r).drop 8) = 0 := by
  rfl

theorem length_encodeRectHeader (r : RawRect) : (encodeRectHeader r).length = 12 := rfl

theorem processRects_encode (width height : ℕ) :
    ∀ (rects : List RawRect) (k : ℕ) (tail fb : List ℕ),
    (∀ r ∈ rects, rectInBounds width height r) →
    processRectsScreenshot width (rects.length + k) (encodeRawRects rects ++ tail) fb =
      processRectsScreenshot width k tail (composite width fb rects) := by
  intro rects
  induction rects with
  | nil => intro k tail fb _; simp [encodeRawRects, composite]
  | cons r rs ih =>
    intro k tail fb hb
    have hr := hb r (by simp)
    have hstream : encodeRawRects (r :: rs) ++ tail =
        encodeRectHeader r ++ (r.data ++ (encodeRawRects rs ++ tail)) := by
      simp [encodeRawRects]
    have hlen : (r :: rs).length + k = (rs.length + k) + 1 := by
      simp
      omega
    rw [hstream, hlen]
    have h12 : readExact 12 (encodeRectHeader r ++ (r.data ++ (encodeRawRects rs ++ tail))) =
        some (encodeRectHeader r, r.data ++ (encodeRawRects rs ++ tail)) := by
      rw [readExact]
      rw [if_pos (by simp [length_encodeRectHeader])]
      rw [List.take_left' (length_encodeRectHeader r),
        List.drop_left' (length_encodeRectHeader r)]
    simp only [processRectsScreenshot, h12, beNat_hdr_x r hr.2.2.2.1,
      beNat_hdr_y r hr.2.2.2.2.1, beNat_hdr_w r hr.2.2.2.2.2.1,
      beNat_hdr_h r hr.2.2.2.2.2.2, enc_hdr_raw r, if_pos rfl]
    have hpl : readExact (r.w * r.h * 4) (r.data ++ (encodeRawRects rs ++ tail)) =
        some (r.data, encodeRawRects rs ++ tail) := by
      rw [readExact]
      rw [if_pos (by simp [hr.2.2.1])]
      rw [List.take_left' hr.2.2.1, List.drop_left' hr.2.2.1]
    simp only [hpl]
    exact ih k tail _ (fun q hq => hb q (by simp [hq]))

theorem rectsAllRaw_encode (width height : ℕ) :
    ∀ (rects : List RawRect) (k : ℕ) (tail : List ℕ),
    (∀ r ∈ rects, rectInBounds width height r) →
    rectsAllRaw (rects.length + k) (encodeRawRects rects ++ tail) = rectsAllRaw k tail := by
  intro rects
  induction rects with
  | nil => intro k tail _; simp [encodeRawRects]
  | cons r rs ih =>
    intro k tail hb
    have hr := hb r (by simp)
    have hstream : encodeRawRects (r :: rs) ++ tail =
        encodeRectHeader r ++ (r.data ++ (encodeRawRects rs ++ tail)) := by
      simp [encodeRawRects]
    have hlen : (r :: rs).length + k = (rs.length + k) + 1 := by
      simp
      omega
    rw [hstream, hlen]
    have h12 : readExact 12 (encodeRectHeader r ++ (r.data ++ (encodeRawRects rs ++ tail))) =
        some (encodeRectHeader r, r.data ++ (encodeRawRects rs ++ tail)) := by
      rw [readExact]
      rw [if_pos (by simp [length_encodeRectHeader])]
      rw [List.take_left' (length_encodeRectHeader r),
        List.drop_left' (length_encodeRectHeader r)]
    simp only [rectsAllRaw, h12, beNat_hdr_w r hr.2.2.2.2.2.1,
      beNat_hdr_h r hr.2.2.2.2.2.2, enc_hdr_raw r, if_pos rfl]
    have hpl : readExact (r.w * r.h * 4) (r.data ++ (encodeRawRects rs ++ tail)) =
        some (r.data, encodeRawRects rs ++ tail) := by
      rw [readExact]
      rw [if_pos (by simp [hr.2.2.1])]
      rw [List.take_left' hr.2.2.1, List.drop_left' hr.2.2.1]
    simp only [hpl]
    exact ih k tail (fun q hq => hb q (by simp [hq]))

/-- C1: for a FramebufferUpdate whose rectangles are all Raw-encoded and
lie within the negotiated display, both rectangle loops copy each
payload row by row into the buffer at offset `((y+row)*width + x)*4`
with `w*4` bytes per row and consume exactly the update's bytes; the
resulting buffer agrees at every position with the payload byte of the
last-processed rectangle covering it (so non-overlapping rectangles
appear at their declared offsets, and on overlap the last-processed
rectangle's bytes win); positions covered by no rectangle stay zero. -/
theorem rawCompositing_spec (width height : ℕ) (rects : List RawRect) (rest : List ℕ)
    (hb : ∀ r ∈ rects, rectInBounds width height r) :
    processRectsScreenshot width rects.length (encodeRawRects rects ++ rest)
        (List.replicate (width * height * 4) 0) =
      .ok (composite width (List.replicate (width * height * 4) 0) rects, rest) ∧
    processRectsControl width rects.length (encodeRawRects rects ++ rest)
        (List.replicate (width * height * 4) 0) =
      .ok (composite width (List.replicate (width * height * 4) 0) rects, rest) ∧
    (composite width (List.replicate (width * height * 4) 0) rects).length =
      width * height * 4 ∧
    (∀ p, p < width * height * 4 →
      byteAt (composite width (List.replicate (width * height * 4) 0) rects) p =
        (match rects.reverse.find? (fun r => rectCovers width r p) with
         | some q => rValue width q p
         | none => 0)) := by
  have hz : (List.replicate (width * height * 4) 0).length = width * height * 4 := by
    simp
  have h1 : processRectsScreenshot width rects.length (encodeRawRects rects ++ rest)
      (List.replicate (width * height * 4) 0) =
      .ok (composite width (List.replicate (width * height * 4) 0) rects, rest) := by
    have h := processRects_encode width height rects 0 rest
      (List.replicate (width * height * 4) 0) hb
    rw [Nat.add_zero] at h
    rw [h]
    rfl
  have hraw : rectsAllRaw rects.length (encodeRawRects rects ++ rest) = true := by
    have h := rectsAllRaw_encode width height rects 0 rest hb
    rw [Nat.add_zero] at h
    rw [h]
    rfl
  refine ⟨h1, ?_, composite_length width height rects _ hb hz, ?_⟩
  · rw [← processRects_eq width rects.length (encodeRawRects rects ++ rest) _ hraw]
    exact h1
  · intro p _
    rw [composite_byteAt width height rects _ p hb hz]
    match hf : rects.reverse.find? (fun r => rectCovers width r p) with
    | some q => rfl
    | none => simp [byteAt_zeros]

theorem rawCompositing_spec_witness :
    processRectsScreenshot 1 [(⟨0, 0, 1, 1, [5, 6, 7, 8]⟩ : RawRect)].length
        (encodeRawRects [⟨0, 0, 1, 1, [5, 6, 7, 8]⟩] ++ [])
        (List.replicate (1 * 1 * 4) 0) =
      .ok (composite 1 (List.replicate (1 * 1 * 4) 0) [⟨0, 0, 1, 1, [5, 6, 7, 8]⟩], []) :=
  (rawCompositing_spec 1 1 [⟨0, 0, 1, 1, [5, 6, 7, 8]⟩] []
    (by simp [rectInBounds])).1

/-- C2 (amended): in the standalone tool, a rectangle with a non-Raw
encoding aborts rectangle processing for the update: rectangles before
it are composited, the unsupported rectangle's region keeps its prior
zero bytes, and the rectangles after it in the server's ordering are NOT
applied — the loop returns immediately after the offending header,
leaving the remaining `m + 1` declared rectangles unprocessed and the
rest of the stream unconsumed. -/
theorem nonRawAbort_spec (width height : ℕ) (rects : List RawRect) (m : ℕ)
    (badHdr rest : List ℕ) (hb : ∀ r ∈ rects, rectInBounds width height r)
    (hlen : badHdr.length = 12) (henc : beSigned32 (badHdr.drop 8) ≠ 0) :
    processRectsScreenshot width (rects.length + (m + 1))
        (encodeRawRects rects ++ (badHdr ++ rest))
        (List.replicate (width * height * 4) 0) =
      .ok (composite width (List.replicate (width * height * 4) 0) rects, rest) := by
  rw [processRects_encode width height rects (m + 1) (badHdr ++ rest) _ hb]
  have h12 : readExact 12 (badHdr ++ rest) = some (badHdr, rest) := by
    rw [readExact]
    rw [if_pos (by simp [hlen])]
    rw [List.take_left' hlen, List.drop_left' hlen]
  simp only [processRectsScreenshot, h12]
  rw [if_neg henc]

theorem nonRawAbort_spec_witness :
    processRectsScreenshot 2 (0 + (0 + 1))
        (encodeRawRects [] ++ ([0, 0, 0, 0, 0, 1, 0, 1, 0, 0, 0, 1] ++ [7, 7]))
        (List.replicate (2 * 1 * 4) 0) =
      .ok (composite 2 (List.replicate (2 * 1 * 4) 0) [], [7, 7]) :=
  nonRawAbort_spec 2 1 [] 0 [0, 0, 0, 0, 0, 1, 0, 1, 0, 0, 0, 1] [7, 7]
    (by simp) (by decide) (by decide)
